import Mathlib

/-!
Shallow embedding of the Skylark BI Agent chat clients.

The repository ships two client implementations of the same event-stream
protocol:

* the modern React client in src/frontend/src/App.jsx (with the side panel
  in src/frontend/src/components/SidePanel.jsx), and
* the legacy vanilla-React client in src/frontend/assets/app.jsx.

Both consume a line-delimited SSE stream of JSON events
(tool_call / tool_result / message / error / done) and maintain
messages, a per-turn trace list, and a bounded conversation history.

The embedding below mirrors the two implementations.  JSON parsing
(JSON.parse) is a platform primitive, not repository code, so event
processing is parametrised by a parse function of type
String -> Option Event; a parse failure (none) models a JSON.parse
exception caught by the surrounding try/catch.  Nondeterministic id
generation (Date.now + Math.random / createId) is replaced by a fresh-id
counter threaded through the state; ids only need to be fresh and unique,
which the counter guarantees.  Wall-clock timestamps on legacy messages are
omitted (no logic reads them).  A JavaScript value that may be undefined is
modelled as an Option; the idiom (x || d) is strOr, which treats both
undefined and the empty string as falsy, and (x ?? d) is Option.getD.
-/

namespace Skylark

/-- One (role, content) entry of the bounded conversation history. -/
structure HEntry where
  role : String
  content : String
deriving DecidableEq, Repr

/-- js arr.slice(-n): the suffix of the last (at most) n elements. -/
def sliceNeg {α : Type} (n : Nat) (l : List α) : List α :=
  l.drop (l.length - n)

/-- js (x || d) on an optional string: undefined and "" are falsy. -/
def strOr (x : Option String) (d : String) : String :=
  match x with
  | some s => if s = "" then d else s
  | none => d

/-- js s.startsWith(p): executable model of the platform string primitive
(defined over the character list so that concrete instances evaluate). -/
def jsStartsWith (s p : String) : Bool :=
  decide (s.data.take p.data.length = p.data)

/-- js s.trim(): executable model of the platform string primitive, which
strips whitespace from both ends. -/
def jsTrim (s : String) : String :=
  ⟨((s.data.dropWhile Char.isWhitespace).reverse.dropWhile
      Char.isWhitespace).reverse⟩

/-- js arr[i] = f(arr[i]) on index i (identity when i is out of range). -/
def modifyIdx {α : Type} : List α → Nat → (α → α) → List α
  | [], _, _ => []
  | x :: xs, 0, f => f x :: xs
  | x :: xs, n + 1, f => x :: modifyIdx xs n f

/-- A decoded SSE event, covering exactly the fields each client reads.
Absent JSON fields are none. -/
inductive Event where
  | tool_call (name : Option String) (args : Option (List (String × String)))
  | tool_result (name : Option String) (item_count : Option Nat)
      (data_quality : Option String)
  | message (content : Option String)
  | error (message : Option String)
  | done
  | other
deriving DecidableEq, Repr

/-- Outcome of the fetch + stream read: either the whole stream is read
(ok with its frame lines), or reading throws after delivering a prefix of
lines (failAfter, covering network failure and non-ok HTTP status, where
the prefix is empty). -/
inductive FetchOutcome where
  | ok (lines : List String)
  | failAfter (lines : List String) (errMsg : String)
deriving DecidableEq, Repr

/-- The frame lines the stream delivered before ending or throwing. -/
def FetchOutcome.lines : FetchOutcome → List String
  | .ok ls => ls
  | .failAfter ls _ => ls

namespace Main

/-- A chat message of the modern client (src/App.jsx): the error flag is
only ever set by the error/catch handlers, absent (false) otherwise. -/
structure Msg where
  id : Nat
  role : String
  content : String
  pending : Bool
  error : Bool
deriving DecidableEq, Repr

/-- A trace entry of the modern client.  name stores event.name verbatim
(possibly undefined, hence Option), as the source does. -/
structure Trace where
  id : Nat
  type : String
  name : Option String
  args : List (String × String)
  resolved : Bool
  itemCount : Option Nat
  dataQuality : Option String
deriving DecidableEq, Repr

/-- The matching condition of the tool_result handler in src/App.jsx line
83: an unresolved call entry whose stored name strictly equals the
event's name. -/
def isMatch (nm : Option String) (t : Trace) : Bool :=
  decide (t.name = nm ∧ t.type = "call" ∧ t.resolved = false)

/-- The resolved transition of src/App.jsx lines 85-90. -/
def patchTrace (ic : Option Nat) (dq : Option String) (t : Trace) : Trace :=
  { t with resolved := true, itemCount := ic, dataQuality := dq }

/-- The tool_result handler of src/App.jsx lines 79-95: map over the
traces with a patched flag, so only the first unresolved call entry whose
name equals the event's name is resolved; every other entry is returned
unchanged. -/
def resolveFirst (nm : Option String) (ic : Option Nat) (dq : Option String) :
    List Trace → List Trace
  | [] => []
  | t :: ts =>
    if isMatch nm t then
      patchTrace ic dq t :: ts
    else
      t :: resolveFirst nm ic dq ts

/-- In-turn mutable state of sendMessage in src/App.jsx: the two React
states it updates during the loop, the finalContent and doneSignal locals,
and the fresh-id counter. -/
structure TurnState where
  messages : List Msg
  traces : List Trace
  finalContent : String
  doneSignal : Bool
  nextId : Nat
deriving DecidableEq, Repr

/-- The switch over event.type in src/App.jsx lines 65-124.
finalContent stores event.content with undefined collapsed to "" (both are
falsy at the later if (finalContent) check, so the collapse is
behaviour-preserving). -/
def applyEvent (assistantId : Nat) (s : TurnState) (e : Event) : TurnState :=
  match e with
  | .tool_call nm args =>
    { s with
      traces := s.traces ++
        [{ id := s.nextId, type := "call", name := nm, args := args.getD [],
           resolved := false, itemCount := none, dataQuality := none }],
      nextId := s.nextId + 1 }
  | .tool_result nm ic dq =>
    { s with traces := resolveFirst nm ic dq s.traces }
  | .message c =>
    { s with
      finalContent := c.getD "",
      messages := s.messages.map fun m =>
        if m.id = assistantId then
          { m with content := c.getD "", pending := false }
        else m }
  | .error msg =>
    { s with
      messages := s.messages.map fun m =>
        if m.id = assistantId then
          { m with
            content := "**Error:** " ++ msg.getD "undefined",
            pending := false, error := true }
        else m }
  | .done => { s with doneSignal := true }
  | .other => s

/-- The frame loop of src/App.jsx lines 52-131 over the decoded lines:
lines not starting with "data: " are skipped, a JSON.parse failure is
swallowed by the inner try/catch, and once doneSignal is set both the
inner for loop and the outer while loop stop, so no later line is
processed. -/
def processLines (parse : String → Option Event) (assistantId : Nat) :
    TurnState → List String → TurnState
  | s, [] => s
  | s, line :: rest =>
    if s.doneSignal then s
    else
      let s' :=
        if jsStartsWith line "data: " then
          match parse (line.drop 6) with
          | some e => applyEvent assistantId s e
          | none => s
        else s
      processLines parse assistantId s' rest

/-- App-level state of the modern client: the React states plus
historyRef.current and the fresh-id counter. -/
structure AppState where
  messages : List Msg
  traces : List Trace
  input : String
  streaming : Bool
  history : List HEntry
  nextId : Nat
deriving DecidableEq, Repr

/-- Result of one sendMessage invocation: the new app state, and the
request body (message text, history) when a network request was issued. -/
structure SendResult where
  state : AppState
  request : Option (String × List HEntry)
deriving DecidableEq, Repr

/-- History update of src/App.jsx lines 146-150: append the user and
assistant entries and keep the last 40. -/
def historyAfter (h : List HEntry) (user assistant : String) : List HEntry :=
  sliceNeg 40 (h ++ [{ role := "user", content := user },
                     { role := "assistant", content := assistant }])

/-- The try block of src/App.jsx lines 39-139 from the reader loop on: the
stream is processed, and a thrown fetch/read (failAfter) lands in the
catch, which maps the assistant message to a connection error.  The reader
is only read while doneSignal is unset, so no throw can occur after a done
event has been consumed. -/
def runStream (parse : String → Option Event) (assistantId : Nat)
    (ts0 : TurnState) (outcome : FetchOutcome) : TurnState :=
  match outcome with
  | .ok lines => processLines parse assistantId ts0 lines
  | .failAfter lines err =>
    let tsl := processLines parse assistantId ts0 lines
    if tsl.doneSignal then tsl
    else
      { tsl with
        messages := tsl.messages.map fun m =>
          if m.id = assistantId then
            { m with
              content := "**Connection error:** " ++ err,
              pending := false, error := true }
          else m }

/-- sendMessage of src/App.jsx lines 19-153.  The guard returns with no
request; otherwise traces are reset, the user and pending assistant
messages are appended, the stream is processed (runStream), and the
finally block clears streaming and pending and appends to the history only
when finalContent is truthy. -/
def sendMessage (parse : String → Option Event) (st : AppState)
    (text : String) (outcome : FetchOutcome) : SendResult :=
  let msgText := jsTrim text
  if msgText = "" ∨ st.streaming then ⟨st, none⟩
  else
    let userId := st.nextId
    let assistantId := st.nextId + 1
    let ts0 : TurnState :=
      { messages := st.messages ++
          [{ id := userId, role := "user", content := msgText,
             pending := false, error := false },
           { id := assistantId, role := "assistant", content := "",
             pending := true, error := false }],
        traces := [], finalContent := "", doneSignal := false,
        nextId := st.nextId + 2 }
    let ts1 : TurnState := runStream parse assistantId ts0 outcome
    let msgs2 := ts1.messages.map fun m =>
      if m.pending then { m with pending := false } else m
    let hist2 :=
      if ts1.finalContent ≠ "" then
        historyAfter st.history msgText ts1.finalContent
      else st.history
    ⟨{ messages := msgs2, traces := ts1.traces, input := "",
       streaming := false, history := hist2, nextId := ts1.nextId },
     some (msgText, st.history)⟩

end Main

namespace Legacy

/-- A chat message of the legacy client (assets/app.jsx).  The wall-clock
timestamp attached by pushUserMessage/pushAssistantMessage is omitted: no
logic reads it. -/
structure Msg where
  id : Nat
  role : String
  content : String
deriving DecidableEq, Repr

/-- A trace entry of the legacy client.  tool_call entries carry
name/args/resolved; tool_result entries carry name/item_count; error
entries carry name/message.  Fields a given entry kind does not set are
modelled as their JS undefined reading (none, or false for the resolved
truthiness test). -/
structure Trace where
  id : Nat
  type : String
  name : String
  args : List (String × String)
  resolved : Bool
  item_count : Option Nat
  message : Option String
deriving DecidableEq, Repr

/-- addTraceCall of assets/app.jsx lines 263-274. -/
def addTraceCall (nm : Option String) (args : Option (List (String × String)))
    (fresh : Nat) (prev : List Trace) : List Trace :=
  prev ++ [{ id := fresh, type := "tool_call", name := strOr nm "unknown_tool",
             args := args.getD [], resolved := false, item_count := none,
             message := none }]

/-- The findIndex condition of assets/app.jsx line 281: an unresolved
tool_call entry whose stored name strictly equals event.name (so an
undefined event.name matches nothing). -/
def isMatch (nm : Option String) (item : Trace) : Bool :=
  decide (item.type = "tool_call" ∧ item.resolved = false ∧
          nm = some item.name)

/-- The resolved transition of assets/app.jsx lines 285-289. -/
def patchTrace (ic : Option Nat) (t : Trace) : Trace :=
  { t with resolved := true, item_count := some (ic.getD 0) }

/-- The standalone tool_result entry pushed by assets/app.jsx lines
293-298 when no call entry matches. -/
def standaloneResult (nm : Option String) (ic : Option Nat)
    (fresh : Nat) : Trace :=
  { id := fresh, type := "tool_result", name := strOr nm "unknown_tool",
    args := [], resolved := false, item_count := some (ic.getD 0),
    message := none }

/-- addTraceResult of assets/app.jsx lines 276-301: findIndex over the
reversed copy locates the most recently added unresolved tool_call whose
name strictly equals event.name; that element is replaced by a resolved
copy carrying item_count.  When no entry matches, a standalone tool_result
entry is appended instead. -/
def addTraceResult (nm : Option String) (ic : Option Nat)
    (fresh : Nat) (prev : List Trace) : List Trace :=
  match prev.reverse.findIdx? (isMatch nm) with
  | some index =>
    let targetIndex := prev.length - 1 - index
    modifyIdx prev targetIndex (patchTrace ic)
  | none =>
    prev ++ [standaloneResult nm ic fresh]

/-- addTraceError of assets/app.jsx lines 303-313. -/
def addTraceError (msg : Option String) (fresh : Nat) (prev : List Trace) :
    List Trace :=
  prev ++ [{ id := fresh, type := "error", name := "Runtime error", args := [],
             resolved := false, item_count := none,
             message := some (strOr msg "Unknown error") }]

/-- In-turn state of the legacy sendMessage: React states it updates plus
the assistantReply and hadError locals, the run-state chip, and the
fresh-id counter. -/
structure TurnState where
  messages : List Msg
  traces : List Trace
  assistantReply : String
  hadError : Bool
  runState : String
  nextId : Nat
deriving DecidableEq, Repr

/-- The event dispatch of assets/app.jsx lines 392-421.  Note the done
case only resets the run-state chip (when no error occurred); it does not
stop the loop. -/
def applyEvent (s : TurnState) (e : Event) : TurnState :=
  match e with
  | .tool_call nm args =>
    { s with
      traces := addTraceCall nm args s.nextId s.traces,
      nextId := s.nextId + 1, runState := "Thinking" }
  | .tool_result nm ic _dq =>
    { s with
      traces := addTraceResult nm ic s.nextId s.traces,
      nextId := s.nextId + 1, runState := "Thinking" }
  | .message c =>
    let reply := c.getD ""
    { s with
      assistantReply := reply,
      messages := s.messages ++
        [{ id := s.nextId, role := "assistant", content := reply }],
      nextId := s.nextId + 1, runState := "Streaming" }
  | .error msg =>
    { s with
      hadError := true,
      traces := addTraceError msg s.nextId s.traces,
      messages := s.messages ++
        [{ id := s.nextId + 1, role := "assistant",
           content := "**Error:** " ++ strOr msg "Unknown error" }],
      nextId := s.nextId + 2, runState := "Error" }
  | .done =>
    { s with runState := if s.hadError then s.runState else "Idle" }
  | .other => s

/-- The frame loop of assets/app.jsx lines 371-423: skip lines without the
"data: " prefix, skip lines whose trimmed payload is empty, swallow
JSON.parse failures, and keep reading to the end of the stream (there is
no break on the done event). -/
def processLines (parse : String → Option Event) :
    TurnState → List String → TurnState
  | s, [] => s
  | s, line :: rest =>
    let s' :=
      if jsStartsWith line "data: " then
        let raw := jsTrim (line.drop 6)
        if raw = "" then s
        else
          match parse raw with
          | some e => applyEvent s e
          | none => s
      else s
    processLines parse s' rest

/-- App-level state of the legacy client (the React states sendMessage
reads or writes; drawer/toast/focus state is pure presentation and
omitted). -/
structure AppState where
  messages : List Msg
  traces : List Trace
  input : String
  streaming : Bool
  history : List HEntry
  runState : String
  nextId : Nat
deriving DecidableEq, Repr

/-- Result of one legacy sendMessage invocation: the new app state, and
the request body (message text, history) when a request was issued. -/
structure SendResult where
  state : AppState
  request : Option (String × List HEntry)
deriving DecidableEq, Repr

/-- History update of assets/app.jsx lines 432-439: append the user and
assistant entries and keep the last 20. -/
def historyAfter (h : List HEntry) (user assistant : String) : List HEntry :=
  sliceNeg 20 (h ++ [{ role := "user", content := user },
                     { role := "assistant", content := assistant }])

/-- The try block of assets/app.jsx lines 352-429 from the reader loop on:
the stream is processed, and a thrown fetch/read (failAfter) lands in the
catch, which adds an error trace entry and a connection-error assistant
message. -/
def runStream (parse : String → Option Event) (ts0 : TurnState)
    (outcome : FetchOutcome) : TurnState :=
  match outcome with
  | .ok lines => processLines parse ts0 lines
  | .failAfter lines err =>
    let tsl := processLines parse ts0 lines
    { tsl with
      hadError := true,
      traces := addTraceError (some err) tsl.nextId tsl.traces,
      messages := tsl.messages ++
        [{ id := tsl.nextId + 1, role := "assistant",
           content := "**Connection error:** " ++ err }],
      nextId := tsl.nextId + 2, runState := "Error" }

/-- sendMessage of assets/app.jsx lines 334-446.  The guard returns with
no request; otherwise traces are reset and the user message pushed, the
stream is processed (runStream), and the history is updated only when
assistantReply is truthy. -/
def sendMessage (parse : String → Option Event) (st : AppState)
    (override : Option String) (outcome : FetchOutcome) : SendResult :=
  let text := jsTrim (override.getD st.input)
  if text = "" ∨ st.streaming then ⟨st, none⟩
  else
    let ts0 : TurnState :=
      { messages := st.messages ++
          [{ id := st.nextId, role := "user", content := text }],
        traces := [], assistantReply := "", hadError := false,
        runState := "Thinking", nextId := st.nextId + 1 }
    let ts1 : TurnState := runStream parse ts0 outcome
    let hist2 :=
      if ts1.assistantReply ≠ "" then
        historyAfter st.history text ts1.assistantReply
      else st.history
    let run2 := if ts1.hadError then ts1.runState else "Idle"
    ⟨{ messages := ts1.messages, traces := ts1.traces, input := "",
       streaming := false, history := hist2, runState := run2,
       nextId := ts1.nextId },
     some (text, st.history)⟩

/-- The BOARDS constant of assets/app.jsx lines 37-40. -/
structure Board where
  name : String
  meta : String
deriving DecidableEq, Repr

/-- The hard-coded board list the legacy side panel renders. -/
def BOARDS : List Board :=
  [{ name := "Deals Pipeline", meta := "346 records available" },
   { name := "Work Orders Tracker", meta := "177 records available" }]

/-- The board meta lines displayed on a turn, as a function of that turn's
live record counts: the side panel receives no per-turn data, so the
rendering is constant in it. -/
def displayedBoardMetas (_liveCounts : List Nat) : List String :=
  BOARDS.map (·.meta)

end Legacy

namespace SidePanel

/-- The BOARDS constant of src/components/SidePanel.jsx lines 14-17
(the color/icon presentation fields are omitted). -/
structure Board where
  name : String
  count : Nat
deriving DecidableEq, Repr

/-- The hard-coded board list the modern side panel renders. -/
def BOARDS : List Board :=
  [{ name := "Deals Pipeline", count := 346 },
   { name := "Work Orders", count := 177 }]

/-- The record counts displayed on a turn, as a function of that turn's
live record counts: the side panel receives no per-turn data, so the
rendering is constant in it. -/
def displayedCountsForTurn (_liveCounts : List Nat) : List Nat :=
  BOARDS.map (·.count)

end SidePanel

/-- The index of the last element satisfying p, stated by direct recursion
(specification-side counterpart of findIndex over the reversed list). -/
def lastIdxWhere {α : Type} (p : α → Bool) : List α → Option Nat
  | [] => none
  | x :: xs =>
    match lastIdxWhere p xs with
    | some i => some (i + 1)
    | none => if p x then some 0 else none

/-! Concrete fixtures used to evaluate the models on closed inputs. -/

/-- A concrete decode table: payload "D" decodes to done, "C" to a
tool_call for the tool named q, "R" to a tool_result for q, "M" to a final
message, and "E" to an error; everything else fails to parse. -/
def demoParse : String → Option Event := fun s =>
  if s = "D" then some Event.done
  else if s = "C" then some (Event.tool_call (some "q") (some []))
  else if s = "R" then some (Event.tool_result (some "q") (some 5) none)
  else if s = "M" then some (Event.message (some "answer"))
  else if s = "E" then some (Event.error (some "boom"))
  else none

/-- An empty in-turn state of the modern client. -/
def demoMainTurn : Main.TurnState :=
  { messages := [], traces := [], finalContent := "", doneSignal := false,
    nextId := 0 }

/-- An empty in-turn state of the legacy client. -/
def demoLegacyTurn : Legacy.TurnState :=
  { messages := [], traces := [], assistantReply := "", hadError := false,
    runState := "Thinking", nextId := 0 }

/-- An unresolved call entry of the modern client for the tool named q. -/
def demoMainCall : Main.Trace :=
  { id := 1, type := "call", name := some "q", args := [], resolved := false,
    itemCount := none, dataQuality := none }

/-- An unresolved tool_call entry of the legacy client for the tool q. -/
def demoLegacyCall : Legacy.Trace :=
  { id := 1, type := "tool_call", name := "q", args := [], resolved := false,
    item_count := none, message := none }

/-- A modern-client in-turn state holding one unresolved call entry. -/
def demoMainTurn2 : Main.TurnState :=
  { demoMainTurn with traces := [demoMainCall], nextId := 5 }

/-- A legacy-client in-turn state holding one unresolved call entry. -/
def demoLegacyTurn2 : Legacy.TurnState :=
  { demoLegacyTurn with traces := [demoLegacyCall], nextId := 5 }

/-- An idle app state of the modern client. -/
def demoMainApp : Main.AppState :=
  { messages := [], traces := [], input := "", streaming := false,
    history := [], nextId := 0 }

/-- An idle app state of the legacy client. -/
def demoLegacyApp : Legacy.AppState :=
  { messages := [], traces := [], input := "", streaming := false,
    history := [], runState := "Idle", nextId := 0 }

namespace HeapRef

/-- Heap rendering of the history-buffer flow of one turn.  A JS array is
a heap object: store maps addresses (in allocation order) to array
contents, and histAddr is the reference held in historyRef.current (modern
client) or the history state (legacy client).  The source update
historyRef.current = [...historyRef.current, userEntry, assistantEntry]
.slice(-40) (src/App.jsx lines 146-150; setHistory with slice(-20) in
assets/app.jsx lines 432-439) reads the old array, allocates a fresh array
holding the appended-and-truncated copy (both the spread and slice
allocate), and rebinds the reference; no statement of either update
assigns into an element of the existing array.  doUpdate is the guard (the
truthiness of finalContent / assistantReply). -/
structure HeapState where
  store : List (List HEntry)
  histAddr : Nat
deriving DecidableEq, Repr

/-- The guarded history update of one turn, acting on the heap. -/
def turnHistoryUpdate (bound : Nat) (hs : HeapState)
    (user assistant : String) (doUpdate : Bool) : HeapState :=
  if doUpdate then
    let old := (hs.store[hs.histAddr]?).getD []
    let newArr := sliceNeg bound
      (old ++ [{ role := "user", content := user },
               { role := "assistant", content := assistant }])
    { store := hs.store ++ [newArr], histAddr := hs.store.length }
  else hs

end HeapRef

/-! Helper lemmas shared by the claim theorems. -/

theorem modifyIdx_length {α : Type} (l : List α) (i : Nat) (f : α → α) :
    (modifyIdx l i f).length = l.length := by
  induction l generalizing i with
  | nil => rfl
  | cons x xs ih =>
    cases i with
    | zero => rfl
    | succ n => simpa [modifyIdx] using ih n

theorem modifyIdx_getElem? {α : Type} (l : List α) (i : Nat) (f : α → α)
    (j : Nat) :
    (modifyIdx l i f)[j]? = if j = i then (l[j]?).map f else l[j]? := by
  induction l generalizing i j with
  | nil => simp [modifyIdx]
  | cons x xs ih =>
    cases i with
    | zero =>
      cases j with
      | zero => simp [modifyIdx]
      | succ m => simp [modifyIdx]
    | succ n =>
      cases j with
      | zero => simp [modifyIdx]
      | succ m => simpa [modifyIdx] using ih n m

theorem findIdx?_lt_length {α : Type} {p : α → Bool} {l : List α} {i : Nat}
    (h : l.findIdx? p = some i) : i < l.length :=
  (List.findIdx?_eq_some_iff_findIdx_eq.mp h).1

theorem reverse_findIdx?_eq_lastIdxWhere {α : Type} (p : α → Bool)
    (l : List α) :
    (l.reverse.findIdx? p).map (fun i => l.length - 1 - i) =
      lastIdxWhere p l := by
  induction l with
  | nil => rfl
  | cons x xs ih =>
    rw [List.reverse_cons, List.findIdx?_append]
    cases hfind : xs.reverse.findIdx? p with
    | some j =>
      have hj : j < xs.length := by
        simpa using findIdx?_lt_length hfind
      have hlast : lastIdxWhere p xs = some (xs.length - 1 - j) := by
        rw [← ih, hfind]; rfl
      rw [lastIdxWhere, hlast]
      simp only [Option.or_some, Option.map_some', List.length_cons]
      congr 1
      omega
    | none =>
      rw [hfind] at ih
      simp only [Option.map_none'] at ih
      rw [lastIdxWhere, ← ih]
      by_cases hp : p x <;>
        simp [hp, List.findIdx?_cons, List.length_reverse]

theorem lastIdxWhere_spec {α : Type} {p : α → Bool} {l : List α} {i : Nat}
    (h : lastIdxWhere p l = some i) :
    i < l.length ∧ ∃ x, l[i]? = some x ∧ p x = true := by
  induction l generalizing i with
  | nil => simp [lastIdxWhere] at h
  | cons y ys ih =>
    rw [lastIdxWhere] at h
    cases hrec : lastIdxWhere p ys with
    | some k =>
      rw [hrec] at h
      cases h
      obtain ⟨hk, x, hx, hpx⟩ := ih hrec
      exact ⟨by simpa using Nat.succ_lt_succ hk, x, by simpa using hx, hpx⟩
    | none =>
      rw [hrec] at h
      by_cases hp : p y
      · simp only [hp, if_true] at h
        cases h
        exact ⟨by simp, y, by simp, hp⟩
      · simp [hp] at h

theorem resolveFirst_eq_findIdx (nm : Option String) (ic : Option Nat)
    (dq : Option String) (ts : List Main.Trace) :
    Main.resolveFirst nm ic dq ts =
      match ts.findIdx? (Main.isMatch nm) with
      | some i => modifyIdx ts i (Main.patchTrace ic dq)
      | none => ts := by
  induction ts with
  | nil => rfl
  | cons t ts ih =>
    by_cases h : Main.isMatch nm t
    · simp [Main.resolveFirst, h, List.findIdx?_cons, modifyIdx]
    · rw [Main.resolveFirst, if_neg (by simp [h]), ih]
      rw [List.findIdx?_cons, if_neg (by simp [h]), List.findIdx?_succ]
      cases hfind : ts.findIdx? (Main.isMatch nm) <;> simp [hfind, modifyIdx]

theorem addTraceResult_eq_lastIdx (nm : Option String) (ic : Option Nat)
    (fresh : Nat) (ts : List Legacy.Trace) :
    Legacy.addTraceResult nm ic fresh ts =
      match lastIdxWhere (Legacy.isMatch nm) ts with
      | some i => modifyIdx ts i (Legacy.patchTrace ic)
      | none => ts ++ [Legacy.standaloneResult nm ic fresh] := by
  rw [Legacy.addTraceResult,
    ← reverse_findIdx?_eq_lastIdxWhere (Legacy.isMatch nm) ts]
  cases hfind : ts.reverse.findIdx? (Legacy.isMatch nm) <;> simp [hfind]

theorem main_processLines_stopped (parse : String → Option Event) (aid : Nat)
    (s : Main.TurnState) (ls : List String) (h : s.doneSignal = true) :
    Main.processLines parse aid s ls = s := by
  cases ls with
  | nil => rfl
  | cons l rest => rw [Main.processLines, if_pos h]

theorem getElem?_append_one {α : Type} (l : List α) (x : α) {i : Nat}
    {t : α} (h : l[i]? = some t) : (l ++ [x])[i]? = some t := by
  obtain ⟨hlt, _⟩ := List.getElem?_eq_some_iff.mp h
  rw [List.getElem?_append_left hlt]
  exact h

theorem resolveFirst_getElem? (nm : Option String) (ic : Option Nat)
    (dq : Option String) (ts : List Main.Trace) (i : Nat) (t : Main.Trace)
    (h : ts[i]? = some t) :
    ((Main.resolveFirst nm ic dq ts)[i]? = some t ∨
      (t.type = "call" ∧ t.resolved = false ∧
        (Main.resolveFirst nm ic dq ts)[i]? =
          some (Main.patchTrace ic dq t))) ∧
    (t.resolved = true → (Main.resolveFirst nm ic dq ts)[i]? = some t) := by
  rw [resolveFirst_eq_findIdx]
  cases hfind : ts.findIdx? (Main.isMatch nm) with
  | none => exact ⟨Or.inl h, fun _ => h⟩
  | some k =>
    by_cases hik : i = k
    · subst hik
      have hp : Main.isMatch nm t = true := by
        have w := List.findIdx?_of_eq_some hfind
        rw [h] at w
        exact w
      have hprops : t.name = nm ∧ t.type = "call" ∧ t.resolved = false := by
        simpa [Main.isMatch] using hp
      constructor
      · right
        refine ⟨hprops.2.1, hprops.2.2, ?_⟩
        rw [modifyIdx_getElem?, if_pos rfl, h]
        rfl
      · intro hres
        rw [hprops.2.2] at hres
        exact Bool.noConfusion hres
    · have hunch : (modifyIdx ts k (Main.patchTrace ic dq))[i]? = some t := by
        rw [modifyIdx_getElem?, if_neg hik, h]
      exact ⟨Or.inl hunch, fun _ => hunch⟩

theorem addTraceResult_getElem? (nm : Option String) (ic : Option Nat)
    (fresh : Nat) (ts : List Legacy.Trace) (i : Nat) (t : Legacy.Trace)
    (h : ts[i]? = some t) :
    ((Legacy.addTraceResult nm ic fresh ts)[i]? = some t ∨
      (t.type = "tool_call" ∧ t.resolved = false ∧
        (Legacy.addTraceResult nm ic fresh ts)[i]? =
          some (Legacy.patchTrace ic t))) ∧
    (t.resolved = true →
      (Legacy.addTraceResult nm ic fresh ts)[i]? = some t) := by
  rw [addTraceResult_eq_lastIdx]
  cases hlast : lastIdxWhere (Legacy.isMatch nm) ts with
  | none =>
    have hunch := getElem?_append_one ts (Legacy.standaloneResult nm ic fresh) h
    exact ⟨Or.inl hunch, fun _ => hunch⟩
  | some k =>
    by_cases hik : i = k
    · subst hik
      obtain ⟨hlt, x, hx, hpx⟩ := lastIdxWhere_spec hlast
      rw [h] at hx
      injection hx with hx'
      subst hx'
      have hprops : t.type = "tool_call" ∧ t.resolved = false ∧
          nm = some t.name := by
        simpa [Legacy.isMatch] using hpx
      constructor
      · right
        refine ⟨hprops.1, hprops.2.1, ?_⟩
        rw [modifyIdx_getElem?, if_pos rfl, h]
        rfl
      · intro hres
        rw [hprops.2.1] at hres
        exact Bool.noConfusion hres
    · have hunch : (modifyIdx ts k (Legacy.patchTrace ic))[i]? = some t := by
        rw [modifyIdx_getElem?, if_neg hik, h]
      exact ⟨Or.inl hunch, fun _ => hunch⟩

theorem sliceNeg_length {α : Type} (n : Nat) (l : List α) :
    (sliceNeg n l).length = min n l.length := by
  simp only [sliceNeg, List.length_drop]
  omega

theorem sliceNeg_suffix {α : Type} (n : Nat) (l : List α) :
    List.IsSuffix (sliceNeg n l) l :=
  List.drop_suffix _ _

theorem main_send_history_cases (parse : String → Option Event)
    (st : Main.AppState) (text : String) (outcome : FetchOutcome) :
    (Main.sendMessage parse st text outcome).state.history = st.history ∨
    ∃ a, (Main.sendMessage parse st text outcome).state.history =
      Main.historyAfter st.history (jsTrim text) a := by
  rw [Main.sendMessage]
  split
  · exact Or.inl rfl
  · dsimp only
    split
    · exact Or.inr ⟨_, rfl⟩
    · exact Or.inl rfl

theorem legacy_send_history_cases (parse : String → Option Event)
    (st : Legacy.AppState) (override : Option String)
    (outcome : FetchOutcome) :
    (Legacy.sendMessage parse st override outcome).state.history =
      st.history ∨
    ∃ a, (Legacy.sendMessage parse st override outcome).state.history =
      Legacy.historyAfter st.history (jsTrim (override.getD st.input)) a := by
  rw [Legacy.sendMessage]
  split
  · exact Or.inl rfl
  · dsimp only
    split
    · exact Or.inr ⟨_, rfl⟩
    · exact Or.inl rfl

theorem main_applyEvent_finalContent (aid : Nat) (s : Main.TurnState)
    (e : Event) (h : ∀ c, e ≠ Event.message c) :
    (Main.applyEvent aid s e).finalContent = s.finalContent := by
  cases e with
  | message c => exact absurd rfl (h c)
  | tool_call nm args => rfl
  | tool_result nm ic dq => rfl
  | error msg => rfl
  | done => rfl
  | other => rfl

theorem main_processLines_finalContent (parse : String → Option Event)
    (aid : Nat) (s : Main.TurnState) (ls : List String)
    (h : ∀ l ∈ ls, ∀ c, parse (l.drop 6) ≠ some (Event.message c)) :
    (Main.processLines parse aid s ls).finalContent = s.finalContent := by
  induction ls generalizing s with
  | nil => rfl
  | cons l rest ih =>
    rw [Main.processLines]
    by_cases hd : s.doneSignal
    · rw [if_pos hd]
    · rw [if_neg hd]
      have hrest : ∀ l' ∈ rest, ∀ c,
          parse (l'.drop 6) ≠ some (Event.message c) :=
        fun l' hl' => h l' (List.mem_cons_of_mem _ hl')
      by_cases hpre : jsStartsWith l "data: "
      · rw [if_pos hpre]
        cases hparse : parse (l.drop 6) with
        | none => exact ih s hrest
        | some e =>
          rw [ih _ hrest]
          refine main_applyEvent_finalContent aid s e (fun c hc => ?_)
          exact h l (List.mem_cons_self _ _) c (hc ▸ hparse)
      · rw [if_neg hpre]
        exact ih s hrest

theorem main_runStream_finalContent (parse : String → Option Event)
    (aid : Nat) (ts0 : Main.TurnState) (outcome : FetchOutcome)
    (h : ∀ l ∈ outcome.lines, ∀ c,
      parse (l.drop 6) ≠ some (Event.message c)) :
    (Main.runStream parse aid ts0 outcome).finalContent =
      ts0.finalContent := by
  cases outcome with
  | ok lines => exact main_processLines_finalContent parse aid ts0 lines h
  | failAfter lines err =>
    rw [Main.runStream]
    split
    · exact main_processLines_finalContent parse aid ts0 lines h
    · exact main_processLines_finalContent parse aid ts0 lines h

theorem legacy_applyEvent_assistantReply (s : Legacy.TurnState) (e : Event)
    (h : ∀ c, e ≠ Event.message c) :
    (Legacy.applyEvent s e).assistantReply = s.assistantReply := by
  cases e with
  | message c => exact absurd rfl (h c)
  | tool_call nm args => rfl
  | tool_result nm ic dq => rfl
  | error msg => rfl
  | done => rfl
  | other => rfl

theorem legacy_processLines_assistantReply (parse : String → Option Event)
    (s : Legacy.TurnState) (ls : List String)
    (h : ∀ l ∈ ls, ∀ c, parse (jsTrim (l.drop 6)) ≠
      some (Event.message c)) :
    (Legacy.processLines parse s ls).assistantReply = s.assistantReply := by
  induction ls generalizing s with
  | nil => rfl
  | cons l rest ih =>
    rw [Legacy.processLines]
    have hrest : ∀ l' ∈ rest, ∀ c,
        parse (jsTrim (l'.drop 6)) ≠ some (Event.message c) :=
      fun l' hl' => h l' (List.mem_cons_of_mem _ hl')
    by_cases hpre : jsStartsWith l "data: "
    · rw [if_pos hpre]
      dsimp only
      by_cases hraw : jsTrim (l.drop 6) = ""
      · rw [if_pos hraw]
        exact ih s hrest
      · rw [if_neg hraw]
        cases hparse : parse (jsTrim (l.drop 6)) with
        | none => exact ih s hrest
        | some e =>
          rw [ih _ hrest]
          refine legacy_applyEvent_assistantReply s e (fun c hc => ?_)
          exact h l (List.mem_cons_self _ _) c (hc ▸ hparse)
    · rw [if_neg hpre]
      exact ih s hrest

theorem legacy_runStream_assistantReply (parse : String → Option Event)
    (ts0 : Legacy.TurnState) (outcome : FetchOutcome)
    (h : ∀ l ∈ outcome.lines, ∀ c,
      parse (jsTrim (l.drop 6)) ≠ some (Event.message c)) :
    (Legacy.runStream parse ts0 outcome).assistantReply =
      ts0.assistantReply := by
  cases outcome with
  | ok lines => exact legacy_processLines_assistantReply parse ts0 lines h
  | failAfter lines err =>
    exact legacy_processLines_assistantReply parse ts0 lines h

/-! Claim theorems. -/

/-- C1 (counterexample): in the legacy client, a tool_result event for a
tool with two still-unresolved call entries resolves the later entry
(id 2), not the earliest one (id 1), so FIFO matching fails as stated. -/
theorem c1_counterexample :
    (Legacy.addTraceResult (some "query_deals_board") (some 3) 7
        [{ id := 1, type := "tool_call", name := "query_deals_board",
           args := [], resolved := false, item_count := none,
           message := none },
         { id := 2, type := "tool_call", name := "query_deals_board",
           args := [], resolved := false, item_count := none,
           message := none }]).map (fun t => (t.id, t.resolved)) =
      [(1, false), (2, true)] := by
  decide

/-- C1 (amended): in the modern client a tool_result event resolves
exactly the earliest (first-index) unresolved call entry with the same
name, leaving every other entry unchanged; in the legacy client it
resolves exactly the most recently added (last-index) unresolved tool_call
entry with the same name, and appends a standalone result entry when no
entry matches. -/
theorem c1_amended :
    (∀ (nm : Option String) (ic : Option Nat) (dq : Option String)
        (ts : List Main.Trace),
      Main.resolveFirst nm ic dq ts =
        match ts.findIdx? (Main.isMatch nm) with
        | some i => modifyIdx ts i (Main.patchTrace ic dq)
        | none => ts) ∧
    (∀ (nm : Option String) (ic : Option Nat) (fresh : Nat)
        (ts : List Legacy.Trace),
      Legacy.addTraceResult nm ic fresh ts =
        match lastIdxWhere (Legacy.isMatch nm) ts with
        | some i => modifyIdx ts i (Legacy.patchTrace ic)
        | none => ts ++ [Legacy.standaloneResult nm ic fresh]) :=
  ⟨resolveFirst_eq_findIdx, addTraceResult_eq_lastIdx⟩

/-- C2 (counterexample): in the legacy client a tool_call frame arriving
after the done frame is still processed — it appends a trace entry — so
done is not a terminal marker for the legacy event loop. -/
theorem c2_counterexample :
    (Legacy.processLines demoParse demoLegacyTurn
        ["data: D", "data: C"]).traces.length = 1 ∧
    (Legacy.processLines demoParse demoLegacyTurn
        ["data: D"]).traces.length = 0 := by
  decide

/-- C2 (amended): in the modern client the done event is terminal: once
the frames consumed so far have set doneSignal, processing any further
frames of the stream leaves the whole turn state (messages, traces,
finalContent and all) exactly as it was. -/
theorem c2_amended (parse : String → Option Event) (aid : Nat)
    (s : Main.TurnState) (lines₁ lines₂ : List String)
    (h : (Main.processLines parse aid s lines₁).doneSignal = true) :
    Main.processLines parse aid s (lines₁ ++ lines₂) =
      Main.processLines parse aid s lines₁ := by
  induction lines₁ generalizing s with
  | nil =>
    simpa using main_processLines_stopped parse aid s lines₂ h
  | cons l rest ih =>
    by_cases hd : s.doneSignal
    · rw [List.cons_append, Main.processLines, if_pos hd,
        main_processLines_stopped parse aid s (l :: rest) hd]
    · rw [List.cons_append, Main.processLines, if_neg hd]
      rw [Main.processLines, if_neg hd] at h ⊢
      exact ih _ h

/-- C3: in both clients, a trace entry already present when an event is
processed is either left completely unchanged by that event, or it was an
unresolved call entry and it undergoes exactly the resolved transition
(the patch, which by definition keeps id, type, name and args); an entry
that is already resolved is never modified by any event. -/
theorem c3 (e : Event) (i : Nat) :
    (∀ (aid : Nat) (s : Main.TurnState) (t : Main.Trace),
      s.traces[i]? = some t →
      ((Main.applyEvent aid s e).traces[i]? = some t ∨
        (t.type = "call" ∧ t.resolved = false ∧ ∃ ic dq,
          (Main.applyEvent aid s e).traces[i]? =
            some (Main.patchTrace ic dq t))) ∧
      (t.resolved = true →
        (Main.applyEvent aid s e).traces[i]? = some t)) ∧
    (∀ (s : Legacy.TurnState) (t : Legacy.Trace),
      s.traces[i]? = some t →
      ((Legacy.applyEvent s e).traces[i]? = some t ∨
        (t.type = "tool_call" ∧ t.resolved = false ∧ ∃ ic,
          (Legacy.applyEvent s e).traces[i]? =
            some (Legacy.patchTrace ic t))) ∧
      (t.resolved = true →
        (Legacy.applyEvent s e).traces[i]? = some t)) := by
  constructor
  · intro aid s t h
    cases e with
    | tool_call nm args =>
      have hk := getElem?_append_one s.traces
        ({ id := s.nextId, type := "call", name := nm, args := args.getD [],
           resolved := false, itemCount := none,
           dataQuality := none } : Main.Trace) h
      exact ⟨Or.inl hk, fun _ => hk⟩
    | tool_result nm ic dq =>
      have hr := resolveFirst_getElem? nm ic dq s.traces i t h
      refine ⟨hr.1.imp id (fun hp => ⟨hp.1, hp.2.1, ic, dq, hp.2.2⟩), hr.2⟩
    | message c => exact ⟨Or.inl h, fun _ => h⟩
    | error msg => exact ⟨Or.inl h, fun _ => h⟩
    | done => exact ⟨Or.inl h, fun _ => h⟩
    | other => exact ⟨Or.inl h, fun _ => h⟩
  · intro s t h
    cases e with
    | tool_call nm args =>
      have hk : (Legacy.addTraceCall nm args s.nextId s.traces)[i]? =
          some t := getElem?_append_one s.traces _ h
      exact ⟨Or.inl hk, fun _ => hk⟩
    | tool_result nm ic dq =>
      have hr := addTraceResult_getElem? nm ic s.nextId s.traces i t h
      refine ⟨hr.1.imp id (fun hp => ⟨hp.1, hp.2.1, ic, hp.2.2⟩), hr.2⟩
    | message c => exact ⟨Or.inl h, fun _ => h⟩
    | error msg =>
      have hk : (Legacy.addTraceError msg s.nextId s.traces)[i]? =
          some t := getElem?_append_one s.traces _ h
      exact ⟨Or.inl hk, fun _ => hk⟩
    | done => exact ⟨Or.inl h, fun _ => h⟩
    | other => exact ⟨Or.inl h, fun _ => h⟩

/-- C3 (witness): a concrete tool_result event applied to a state holding
one unresolved call entry, in each client. -/
theorem c3_witness :
    (demoMainTurn2.traces[0]? = some demoMainCall ∧
      (((Main.applyEvent 0 demoMainTurn2
            (Event.tool_result (some "q") (some 5) none)).traces[0]? =
          some demoMainCall ∨
        (demoMainCall.type = "call" ∧ demoMainCall.resolved = false ∧
          ∃ ic dq, (Main.applyEvent 0 demoMainTurn2
            (Event.tool_result (some "q") (some 5) none)).traces[0]? =
              some (Main.patchTrace ic dq demoMainCall))) ∧
       (demoMainCall.resolved = true →
         (Main.applyEvent 0 demoMainTurn2
            (Event.tool_result (some "q") (some 5) none)).traces[0]? =
           some demoMainCall))) ∧
    (demoLegacyTurn2.traces[0]? = some demoLegacyCall ∧
      (((Legacy.applyEvent demoLegacyTurn2
            (Event.tool_result (some "q") (some 5) none)).traces[0]? =
          some demoLegacyCall ∨
        (demoLegacyCall.type = "tool_call" ∧
          demoLegacyCall.resolved = false ∧
          ∃ ic, (Legacy.applyEvent demoLegacyTurn2
            (Event.tool_result (some "q") (some 5) none)).traces[0]? =
              some (Legacy.patchTrace ic demoLegacyCall))) ∧
       (demoLegacyCall.resolved = true →
         (Legacy.applyEvent demoLegacyTurn2
            (Event.tool_result (some "q") (some 5) none)).traces[0]? =
           some demoLegacyCall))) :=
  ⟨⟨by decide, (c3 (Event.tool_result (some "q") (some 5) none) 0).1 0
      demoMainTurn2 demoMainCall (by decide)⟩,
   ⟨by decide, (c3 (Event.tool_result (some "q") (some 5) none) 0).2
      demoLegacyTurn2 demoLegacyCall (by decide)⟩⟩

/-- C2 (witness): a concrete stream whose first frame is done; processing
a further tool_call frame changes nothing. -/
theorem c2_witness :
    (Main.processLines demoParse 0 demoMainTurn ["data: D"]).doneSignal =
      true ∧
    Main.processLines demoParse 0 demoMainTurn
        (["data: D"] ++ ["data: C"]) =
      Main.processLines demoParse 0 demoMainTurn ["data: D"] :=
  ⟨by decide, c2_amended demoParse 0 demoMainTurn ["data: D"] ["data: C"]
    (by decide)⟩

/-- C4: the per-turn history update keeps exactly the most recent entries
in order — the updated history is a suffix of the old history with the
user and assistant entries appended, of length min(bound, old + 2) — and a
turn of either client never grows the retained history beyond its bound
(40 for the modern client, 20 for the legacy one). -/
theorem c4 :
    (∀ (h : List HEntry) (u a : String),
      (Main.historyAfter h u a).length = min 40 (h.length + 2) ∧
      (Main.historyAfter h u a).length ≤ 40 ∧
      List.IsSuffix (Main.historyAfter h u a)
        (h ++ [{ role := "user", content := u },
               { role := "assistant", content := a }])) ∧
    (∀ (h : List HEntry) (u a : String),
      (Legacy.historyAfter h u a).length = min 20 (h.length + 2) ∧
      (Legacy.historyAfter h u a).length ≤ 20 ∧
      List.IsSuffix (Legacy.historyAfter h u a)
        (h ++ [{ role := "user", content := u },
               { role := "assistant", content := a }])) ∧
    (∀ (parse : String → Option Event) (st : Main.AppState) (text : String)
        (outcome : FetchOutcome), st.history.length ≤ 40 →
      (Main.sendMessage parse st text outcome).state.history.length ≤ 40) ∧
    (∀ (parse : String → Option Event) (st : Legacy.AppState)
        (override : Option String) (outcome : FetchOutcome),
      st.history.length ≤ 20 →
      (Legacy.sendMessage parse st override outcome).state.history.length
        ≤ 20) := by
  refine ⟨fun h u a => ?_, fun h u a => ?_, ?_, ?_⟩
  · refine ⟨?_, ?_, sliceNeg_suffix _ _⟩ <;>
      simp [Main.historyAfter, sliceNeg_length]
  · refine ⟨?_, ?_, sliceNeg_suffix _ _⟩ <;>
      simp [Legacy.historyAfter, sliceNeg_length]
  · intro parse st text outcome hb
    rcases main_send_history_cases parse st text outcome with hc | ⟨a, hc⟩
    · rw [hc]; exact hb
    · rw [hc, Main.historyAfter, sliceNeg_length]; omega
  · intro parse st override outcome hb
    rcases legacy_send_history_cases parse st override outcome with
      hc | ⟨a, hc⟩
    · rw [hc]; exact hb
    · rw [hc, Legacy.historyAfter, sliceNeg_length]; omega

/-- C4 (witness): a concrete turn of each client stays within the bound. -/
theorem c4_witness :
    demoMainApp.history.length ≤ 40 ∧
    (Main.sendMessage demoParse demoMainApp "hi"
        (.ok ["data: M"])).state.history.length ≤ 40 ∧
    demoLegacyApp.history.length ≤ 20 ∧
    (Legacy.sendMessage demoParse demoLegacyApp (some "hi")
        (.ok ["data: M"])).state.history.length ≤ 20 :=
  ⟨by decide,
   c4.2.2.1 demoParse demoMainApp "hi" (.ok ["data: M"]) (by decide),
   by decide,
   c4.2.2.2 demoParse demoLegacyApp (some "hi") (.ok ["data: M"])
     (by decide)⟩

/-- C5: in the heap rendering of the turn's history update (for any bound,
covering both clients' updates), the array the reference pointed to when
the turn started is element-for-element unchanged afterwards, and when the
update fires the reference is rebound to a freshly allocated array holding
the appended-and-truncated copy. -/
theorem c5 (bound : Nat) (hs : HeapRef.HeapState) (u a : String) (b : Bool)
    (hvalid : hs.histAddr < hs.store.length) :
    (HeapRef.turnHistoryUpdate bound hs u a b).store[hs.histAddr]? =
      hs.store[hs.histAddr]? ∧
    (b = true →
      (HeapRef.turnHistoryUpdate bound hs u a b).histAddr ≠ hs.histAddr ∧
      (HeapRef.turnHistoryUpdate bound hs u a
          b).store[(HeapRef.turnHistoryUpdate bound hs u a b).histAddr]? =
        some (sliceNeg bound ((hs.store[hs.histAddr]?).getD [] ++
          [{ role := "user", content := u },
           { role := "assistant", content := a }]))) := by
  cases b with
  | false => exact ⟨rfl, fun hb => Bool.noConfusion hb⟩
  | true =>
    constructor
    · show (hs.store ++ [_])[hs.histAddr]? = hs.store[hs.histAddr]?
      exact List.getElem?_append_left hvalid
    · intro _
      refine ⟨Nat.ne_of_gt hvalid, ?_⟩
      show (hs.store ++ [_])[hs.store.length]? = _
      rw [List.getElem?_concat_length]

/-- C5 (witness): a one-array heap; after the turn the original array is
untouched and the reference points at the fresh copy. -/
theorem c5_witness :
    ({ store := [[{ role := "user", content := "old" }]], histAddr := 0 } :
        HeapRef.HeapState).histAddr <
      ({ store := [[{ role := "user", content := "old" }]], histAddr := 0 } :
        HeapRef.HeapState).store.length ∧
    (HeapRef.turnHistoryUpdate 40
        { store := [[{ role := "user", content := "old" }]], histAddr := 0 }
        "u" "a" true).store[(0 : Nat)]? =
      ({ store := [[{ role := "user", content := "old" }]], histAddr := 0 } :
        HeapRef.HeapState).store[(0 : Nat)]? :=
  ⟨by decide,
   (c5 40 { store := [[{ role := "user", content := "old" }]], histAddr := 0 }
      "u" "a" true (by decide)).1⟩

/-- C6: a turn that actually starts (non-blank text, not already
streaming) resets the trace list before processing any event: the traces
a turn ends with are identical whatever trace list was left over from a
prior turn, so no prior entry is carried into, resolved by, or matched
against the new turn's events. -/
theorem c6 :
    (∀ (parse : String → Option Event) (st : Main.AppState) (text : String)
        (outcome : FetchOutcome) (ts' : List Main.Trace),
      jsTrim text ≠ "" → st.streaming = false →
      (Main.sendMessage parse st text outcome).state.traces =
        (Main.sendMessage parse { st with traces := ts' } text
            outcome).state.traces) ∧
    (∀ (parse : String → Option Event) (st : Legacy.AppState)
        (override : Option String) (outcome : FetchOutcome)
        (ts' : List Legacy.Trace),
      jsTrim (override.getD st.input) ≠ "" → st.streaming = false →
      (Legacy.sendMessage parse st override outcome).state.traces =
        (Legacy.sendMessage parse { st with traces := ts' } override
            outcome).state.traces) := by
  constructor
  · intro parse st text outcome ts' hg hs
    rw [Main.sendMessage, Main.sendMessage]
    rw [if_neg (by simp [hg, hs]), if_neg (by simp [hg, hs])]
  · intro parse st override outcome ts' hg hs
    rw [Legacy.sendMessage, Legacy.sendMessage]
    rw [if_neg (by simp [hg, hs]), if_neg (by simp [hg, hs])]

/-- C6 (witness): a concrete turn started on top of a leftover trace entry
yields the same traces as the same turn started on an empty list. -/
theorem c6_witness :
    jsTrim "hi" ≠ "" ∧ demoMainApp.streaming = false ∧
    (Main.sendMessage demoParse demoMainApp "hi"
        (.ok ["data: C"])).state.traces =
      (Main.sendMessage demoParse { demoMainApp with
          traces := [demoMainCall] } "hi" (.ok ["data: C"])).state.traces ∧
    jsTrim ((some "hi").getD demoLegacyApp.input) ≠ "" ∧
    demoLegacyApp.streaming = false ∧
    (Legacy.sendMessage demoParse demoLegacyApp (some "hi")
        (.ok ["data: C"])).state.traces =
      (Legacy.sendMessage demoParse { demoLegacyApp with
          traces := [demoLegacyCall] } (some "hi")
          (.ok ["data: C"])).state.traces :=
  ⟨by decide, by decide,
   c6.1 demoParse demoMainApp "hi" (.ok ["data: C"]) [demoMainCall]
     (by decide) (by decide),
   by decide, by decide,
   c6.2 demoParse demoLegacyApp (some "hi") (.ok ["data: C"])
     [demoLegacyCall] (by decide) (by decide)⟩

/-- C7 (counterexample): on a turn whose live record counts are 0 and 0,
the side panel still displays 346 and 177 — the displayed counts are not
derived from the turn's live coverage statistics. -/
theorem c7_counterexample :
    SidePanel.displayedCountsForTurn [0, 0] = [346, 177] ∧
    SidePanel.displayedCountsForTurn [0, 0] ≠ [0, 0] := by
  decide

/-- C7 (amended): the board record counts displayed to the user are
hard-coded constants (346 for the deals board, 177 for the work-orders
board, in both clients); they are the same on every turn regardless of the
turn's live record counts. -/
theorem c7_amended :
    (∀ live : List Nat,
      SidePanel.displayedCountsForTurn live = [346, 177]) ∧
    (∀ live : List Nat,
      Legacy.displayedBoardMetas live =
        ["346 records available", "177 records available"]) :=
  ⟨fun _ => rfl, fun _ => rfl⟩

/-- C8: when no frame of the turn's stream decodes to a message event (for
example the stream carries only an error event, or the connection fails
before or during the read), neither client changes the retained
conversation history: neither the user message nor any assistant content
is appended. -/
theorem c8 :
    (∀ (parse : String → Option Event) (st : Main.AppState) (text : String)
        (outcome : FetchOutcome),
      (∀ l ∈ outcome.lines, ∀ c,
        parse (l.drop 6) ≠ some (Event.message c)) →
      (Main.sendMessage parse st text outcome).state.history =
        st.history) ∧
    (∀ (parse : String → Option Event) (st : Legacy.AppState)
        (override : Option String) (outcome : FetchOutcome),
      (∀ l ∈ outcome.lines, ∀ c,
        parse (jsTrim (l.drop 6)) ≠ some (Event.message c)) →
      (Legacy.sendMessage parse st override outcome).state.history =
        st.history) := by
  constructor
  · intro parse st text outcome h
    rw [Main.sendMessage]
    split
    · rfl
    · dsimp only
      rw [main_runStream_finalContent parse _ _ outcome h]
      simp
  · intro parse st override outcome h
    rw [Legacy.sendMessage]
    split
    · rfl
    · dsimp only
      rw [legacy_runStream_assistantReply parse _ outcome h]
      simp

/-- C8 (witness): a failed connection (modern client) and an error-only
stream (legacy client) leave the history exactly as it was. -/
theorem c8_witness :
    (∀ l ∈ (FetchOutcome.failAfter [] "boom").lines, ∀ c,
      demoParse (l.drop 6) ≠ some (Event.message c)) ∧
    (Main.sendMessage demoParse demoMainApp "hi"
        (.failAfter [] "boom")).state.history = demoMainApp.history ∧
    (∀ l ∈ (FetchOutcome.ok ["data: E"]).lines, ∀ c,
      demoParse (jsTrim (l.drop 6)) ≠ some (Event.message c)) ∧
    (Legacy.sendMessage demoParse demoLegacyApp (some "hi")
        (.ok ["data: E"])).state.history = demoLegacyApp.history := by
  have h1 : ∀ l ∈ (FetchOutcome.failAfter [] "boom").lines, ∀ c,
      demoParse (l.drop 6) ≠ some (Event.message c) := by
    intro l hl
    exact absurd hl (List.not_mem_nil l)
  have h2 : ∀ l ∈ (FetchOutcome.ok ["data: E"]).lines, ∀ c,
      demoParse (jsTrim (l.drop 6)) ≠ some (Event.message c) := by
    intro l hl c hc
    rw [show (FetchOutcome.ok ["data: E"]).lines = ["data: E"] from rfl,
      List.mem_singleton] at hl
    subst hl
    have hev : demoParse (jsTrim ("data: E".drop 6)) =
        some (Event.error (some "boom")) := by decide
    rw [hev] at hc
    exact Event.noConfusion (Option.some.inj hc)
  exact ⟨h1, c8.1 demoParse demoMainApp "hi" (.failAfter [] "boom") h1,
         h2, c8.2 demoParse demoLegacyApp (some "hi") (.ok ["data: E"]) h2⟩

/-- C9: a frame that lacks the "data: " prefix, whose trimmed payload is
empty (legacy client), or whose payload fails to parse as JSON is skipped:
processing it leaves the turn state untouched and continues with the
remaining frames exactly as if the bad frame were absent (and, the models
being total functions, nothing is raised). -/
theorem c9 :
    (∀ (parse : String → Option Event) (aid : Nat) (s : Main.TurnState)
        (line : String) (rest : List String),
      (jsStartsWith line "data: " = false ∨ parse (line.drop 6) = none) →
      Main.processLines parse aid s (line :: rest) =
        Main.processLines parse aid s rest) ∧
    (∀ (parse : String → Option Event) (s : Legacy.TurnState)
        (line : String) (rest : List String),
      (jsStartsWith line "data: " = false ∨ jsTrim (line.drop 6) = "" ∨
        parse (jsTrim (line.drop 6)) = none) →
      Legacy.processLines parse s (line :: rest) =
        Legacy.processLines parse s rest) := by
  constructor
  · intro parse aid s line rest h
    by_cases hd : s.doneSignal
    · rw [Main.processLines, if_pos hd,
        main_processLines_stopped parse aid s rest hd]
    · rw [Main.processLines, if_neg hd]
      have hs' : (if jsStartsWith line "data: " then
          match parse (line.drop 6) with
          | some e => Main.applyEvent aid s e
          | none => s
        else s) = s := by
        rcases h with h | h
        · rw [if_neg (by simp [h])]
        · by_cases hp : jsStartsWith line "data: "
          · rw [if_pos hp, h]
          · rw [if_neg hp]
      rw [hs']
  · intro parse s line rest h
    rw [Legacy.processLines]
    have hs' : (if jsStartsWith line "data: " then
        (if jsTrim (line.drop 6) = "" then s
         else
           match parse (jsTrim (line.drop 6)) with
           | some e => Legacy.applyEvent s e
           | none => s)
      else s) = s := by
      rcases h with h | h | h
      · rw [if_neg (by simp [h])]
      · by_cases hp : jsStartsWith line "data: "
        · rw [if_pos hp, if_pos h]
        · rw [if_neg hp]
      · by_cases hp : jsStartsWith line "data: "
        · by_cases hraw : jsTrim (line.drop 6) = ""
          · rw [if_pos hp, if_pos hraw]
          · rw [if_pos hp, if_neg hraw, h]
        · rw [if_neg hp]
    rw [hs']

/-- C9 (witness): a frame without the prefix is skipped in both clients
while the following well-formed frame is still processed. -/
theorem c9_witness :
    (jsStartsWith "comment" "data: " = false ∨
      demoParse ("comment".drop 6) = none) ∧
    Main.processLines demoParse 0 demoMainTurn ["comment", "data: C"] =
      Main.processLines demoParse 0 demoMainTurn ["data: C"] ∧
    (jsStartsWith "comment" "data: " = false ∨
      jsTrim ("comment".drop 6) = "" ∨
      demoParse (jsTrim ("comment".drop 6)) = none) ∧
    Legacy.processLines demoParse demoLegacyTurn ["comment", "data: C"] =
      Legacy.processLines demoParse demoLegacyTurn ["data: C"] :=
  ⟨Or.inl (by decide),
   c9.1 demoParse 0 demoMainTurn "comment" ["data: C"]
     (Or.inl (by decide)),
   Or.inl (by decide),
   c9.2 demoParse demoLegacyTurn "comment" ["data: C"]
     (Or.inl (by decide))⟩

/-- C10: sending a message that trims to empty, or sending while a turn is
already streaming, is a no-op in both clients: no request is issued and
the app state (messages, traces, input, streaming flag, history) is
returned unchanged. -/
theorem c10 :
    (∀ (parse : String → Option Event) (st : Main.AppState) (text : String)
        (outcome : FetchOutcome),
      jsTrim text = "" ∨ st.streaming = true →
      Main.sendMessage parse st text outcome = ⟨st, none⟩) ∧
    (∀ (parse : String → Option Event) (st : Legacy.AppState)
        (override : Option String) (outcome : FetchOutcome),
      jsTrim (override.getD st.input) = "" ∨ st.streaming = true →
      Legacy.sendMessage parse st override outcome = ⟨st, none⟩) := by
  constructor
  · intro parse st text outcome h
    rw [Main.sendMessage, if_pos h]
  · intro parse st override outcome h
    rw [Legacy.sendMessage, if_pos h]

/-- C10 (witness): a whitespace-only message is a no-op for the modern
client; sending while streaming is a no-op for the legacy client. -/
theorem c10_witness :
    (jsTrim "   " = "" ∨ demoMainApp.streaming = true) ∧
    Main.sendMessage demoParse demoMainApp "   " (.ok ["data: M"]) =
      ⟨demoMainApp, none⟩ ∧
    (jsTrim ((some "hi").getD ({ demoLegacyApp with
        streaming := true } : Legacy.AppState).input) = "" ∨
      ({ demoLegacyApp with streaming := true } :
        Legacy.AppState).streaming = true) ∧
    Legacy.sendMessage demoParse { demoLegacyApp with streaming := true }
        (some "hi") (.ok ["data: M"]) =
      ⟨{ demoLegacyApp with streaming := true }, none⟩ :=
  ⟨Or.inl (by decide),
   c10.1 demoParse demoMainApp "   " (.ok ["data: M"])
     (Or.inl (by decide)),
   Or.inr (by decide),
   c10.2 demoParse { demoLegacyApp with streaming := true } (some "hi")
     (.ok ["data: M"]) (Or.inr (by decide))⟩

end Skylark
